import Mathlib

/-!
Verification development for the Vestibular-EEG-data-analysis pipeline.

The Python scripts (01_Load_and_filter.py, 02_Interpolate_Bad_Channels.py,
04_ICA.py, Load_and_filter.py) are shallowly embedded: stream selection,
channel-role assignment, annotation building, the bad-channel confirmation
loop, the interpolation step, the ICA data-preparation and apply steps, and
the top-level control flow of each script's `main`. Numeric kernels
(FIR filtering, spherical-spline interpolation, ICA fitting) are external
library calls; they are represented by their data-flow effect on the state,
with the interpolation kernel modelled from the spec's contract.
-/

namespace Vestibular

/-- `listStarts needle hay` holds when `needle` is an initial segment of
`hay`. -/
def listStarts (needle hay : List Char) : Bool :=
  match needle, hay with
  | [], _ => true
  | _ :: _, [] => false
  | a :: ns, b :: hs => a == b && listStarts ns hs

/-- `listInfixOf needle hay` holds when `needle` occurs contiguously inside
`hay`. -/
def listInfixOf (needle : List Char) : List Char → Bool
  | [] => listStarts needle []
  | b :: hs => listStarts needle (b :: hs) || listInfixOf needle hs

/-- Python's `needle in hay` substring test (case-sensitive). -/
def strContains (hay needle : String) : Bool :=
  listInfixOf needle.toList hay.toList

/-- One stream of a multi-stream XDF recording: name, type tag, the
timestamp vector, and (for marker streams) the per-sample string payloads
`str(row[0])`. -/
structure XStream where
  name : String
  typeTag : String
  timeStamps : List ℚ
  payloads : List String
deriving Repr, DecidableEq

/-- `Load_and_filter.py` line 25: the first stream whose type tag equals
`"EEG"`. -/
def findEEGStream (streams : List XStream) : Option XStream :=
  streams.find? (fun s => s.typeTag == "EEG")

/-- `Load_and_filter.py` lines 25-27: automatic signal-stream selection,
raising `RuntimeError` when no stream has type `"EEG"`. -/
def loadSignalStream (streams : List XStream) : Except String XStream :=
  match findEEGStream streams with
  | some s => .ok s
  | none => .error "Could not find any stream with type EEG in the file."

/-- `Load_and_filter.py` line 55: the first stream whose type tag contains
`"Marker"` (case-sensitive substring), or none. -/
def findMarkerStream (streams : List XStream) : Option XStream :=
  streams.find? (fun s => strContains s.typeTag "Marker")

/-- A successful `find?` locates the first satisfying element: the list
splits as `l1 ++ a :: l2` with no hit in `l1`. -/
theorem find?_first {α : Type} (p : α → Bool) :
    ∀ (l : List α) (a : α), l.find? p = some a →
      ∃ l1 l2, l = l1 ++ a :: l2 ∧ ∀ x ∈ l1, p x = false := by
  intro l
  induction l with
  | nil => intro a h; simp [List.find?] at h
  | cons b t ih =>
    intro a h
    by_cases hb : p b = true
    · simp [List.find?, hb] at h
      subst h
      exact ⟨[], t, rfl, by simp⟩
    · simp only [Bool.not_eq_true] at hb
      rw [List.find?_cons_of_neg _ (by simp [hb])] at h
      obtain ⟨l1, l2, hsplit, hall⟩ := ih a h
      refine ⟨b :: l1, l2, by simp [hsplit], ?_⟩
      intro x hx
      rcases List.mem_cons.1 hx with h1 | h2
      · simpa [h1] using hb
      · exact hall x h2

/-- Claim C3: for every Recording with at least one stream, automatic
selection fails exactly when no stream's type tag equals "EEG"; a success
returns the first stream whose type tag equals "EEG"; the event stream is
the first stream whose type tag contains "Marker" (case-sensitive), and is
none exactly when no stream's type tag contains it. -/
theorem automatic_stream_selection (streams : List XStream) (hne : streams ≠ []) :
    ((∃ e, loadSignalStream streams = .error e) ↔
      ∀ s ∈ streams, s.typeTag ≠ "EEG") ∧
    (∀ s, loadSignalStream streams = .ok s →
      s.typeTag = "EEG" ∧
        ∃ l1 l2, streams = l1 ++ s :: l2 ∧ ∀ t ∈ l1, t.typeTag ≠ "EEG") ∧
    ((∃ s, loadSignalStream streams = .ok s) ↔
      ∃ s ∈ streams, s.typeTag = "EEG") ∧
    (findMarkerStream streams = none ↔
      ∀ s ∈ streams, strContains s.typeTag "Marker" = false) ∧
    (∀ s, findMarkerStream streams = some s →
      strContains s.typeTag "Marker" = true ∧
        ∃ l1 l2, streams = l1 ++ s :: l2 ∧
          ∀ t ∈ l1, strContains t.typeTag "Marker" = false) := by
  have hmain : ∀ s, findEEGStream streams = some s →
      s.typeTag = "EEG" ∧
        ∃ l1 l2, streams = l1 ++ s :: l2 ∧ ∀ t ∈ l1, t.typeTag ≠ "EEG" := by
    intro s hf
    have hp := List.find?_some hf
    obtain ⟨l1, l2, hsplit, hall⟩ := find?_first _ _ _ hf
    refine ⟨by simpa using hp, l1, l2, hsplit, ?_⟩
    intro t ht
    have := hall t ht
    simp only [beq_eq_false_iff_ne, ne_eq] at this
    exact this
  have hmark : ∀ s, findMarkerStream streams = some s →
      strContains s.typeTag "Marker" = true ∧
        ∃ l1 l2, streams = l1 ++ s :: l2 ∧
          ∀ t ∈ l1, strContains t.typeTag "Marker" = false := by
    intro s hf
    have hf' : streams.find? (fun t => strContains t.typeTag "Marker") = some s := hf
    exact ⟨by simpa using List.find?_some hf', find?_first _ _ _ hf'⟩
  refine ⟨?_, ?_, ?_, ?_, hmark⟩
  · cases hf : findEEGStream streams with
    | none =>
      simp only [loadSignalStream, hf]
      refine iff_of_true ⟨_, rfl⟩ ?_
      intro s hs hEEG
      have := List.find?_eq_none.1 hf s hs
      simp [hEEG] at this
    | some t =>
      simp only [loadSignalStream, hf]
      refine iff_of_false ?_ ?_
      · rintro ⟨e, he⟩
        exact Except.noConfusion he
      · intro hall
        exact hall t (List.mem_of_find?_eq_some hf) (hmain t hf).1
  · intro s hok
    cases hf : findEEGStream streams with
    | none => simp [loadSignalStream, hf] at hok
    | some t =>
      have hts : t = s := by simpa [loadSignalStream, hf] using hok
      subst hts
      exact hmain t hf
  · constructor
    · rintro ⟨s, hok⟩
      cases hf : findEEGStream streams with
      | none => simp [loadSignalStream, hf] at hok
      | some t =>
        exact ⟨t, List.mem_of_find?_eq_some hf, (hmain t hf).1⟩
    · rintro ⟨s, hs, hEEG⟩
      have hsome : (streams.find? (fun s => s.typeTag == "EEG")).isSome := by
        rw [List.find?_isSome]
        exact ⟨s, hs, by simp [hEEG]⟩
      obtain ⟨t, ht⟩ := Option.isSome_iff_exists.1 hsome
      exact ⟨t, by simp [loadSignalStream, findEEGStream, ht]⟩
  · rw [findMarkerStream, List.find?_eq_none]
    constructor
    · intro h s hs
      have := h s hs
      simpa using this
    · intro h s hs
      simp [h s hs]

/-- Witness for `automatic_stream_selection` at a one-stream recording of
type "EEG". -/
theorem automatic_stream_selection_witness :
    ∃ s, loadSignalStream [⟨"sig", "EEG", [], []⟩] = .ok s := by
  have h := automatic_stream_selection [⟨"sig", "EEG", [], []⟩] (by simp)
  exact h.2.2.1.2 ⟨⟨"sig", "EEG", [], []⟩, by simp, rfl⟩

/-- MNE channel kinds used by the pipeline: ocular reference, cardiac
reference, digital trigger, and plain signal channels. -/
inductive ChType
  | eog
  | ecg
  | stim
  | eeg
deriving DecidableEq, Repr

/-- Python's `str.upper()` over the ASCII labels this pipeline sees. -/
def upperStr (s : String) : String :=
  ⟨s.data.map Char.toUpper⟩

/-- `01_Load_and_filter.py` lines 77-87: dynamic channel-type assignment.
The substring rules test the uppercased label `uname`; the AUX exact-match
rules test the original label `name`. -/
def chTypeOf (name : String) : ChType :=
  if strContains (upperStr name) "EOG" || name == "AUX7" || name == "AUX8" then .eog
  else if strContains (upperStr name) "ECG" || name == "AUX9" then .ecg
  else if strContains (upperStr name) "TRIGGER" then .stim
  else .eeg

/-- Role assignment as the spec words it: uppercase-normalize the label and
test every rule, the exact-match AUX rules included, against the normalized
form. Declared only for comparison with `chTypeOf`, the code's rule
table. -/
def chTypeOfSpecReading (name : String) : ChType :=
  if strContains (upperStr name) "EOG" || upperStr name == "AUX7" ||
      upperStr name == "AUX8" then .eog
  else if strContains (upperStr name) "ECG" || upperStr name == "AUX9" then .ecg
  else if strContains (upperStr name) "TRIGGER" then .stim
  else .eeg

/-- Claim C7 counterexample: the label "aux7" uppercase-normalizes to
"AUX7", an ocular-reference pattern, yet the code assigns the signal role,
because the AUX exact-match rules test the original label, not the
normalized one. -/
theorem role_assignment_counterexample :
    upperStr "aux7" = "AUX7" ∧ chTypeOf "aux7" = ChType.eeg ∧
      chTypeOfSpecReading "aux7" = ChType.eog := by decide

/-- Claim C7 (amended): rules are tested in the fixed priority order
ocular, cardiac, trigger, default signal, and every channel receives
exactly one role; the substring rules (EOG/ECG/TRIGGER) test the
uppercase-normalized label while the AUX exact-match rules test the
original label. -/
theorem role_assignment_priority (name : String) :
    (chTypeOf name = ChType.eog ↔
      (strContains (upperStr name) "EOG" = true ∨ name = "AUX7" ∨ name = "AUX8")) ∧
    (chTypeOf name = ChType.ecg ↔
      (¬(strContains (upperStr name) "EOG" = true ∨ name = "AUX7" ∨ name = "AUX8") ∧
        (strContains (upperStr name) "ECG" = true ∨ name = "AUX9"))) ∧
    (chTypeOf name = ChType.stim ↔
      (¬(strContains (upperStr name) "EOG" = true ∨ name = "AUX7" ∨ name = "AUX8") ∧
        ¬(strContains (upperStr name) "ECG" = true ∨ name = "AUX9") ∧
        strContains (upperStr name) "TRIGGER" = true)) ∧
    (chTypeOf name = ChType.eeg ↔
      (¬(strContains (upperStr name) "EOG" = true ∨ name = "AUX7" ∨ name = "AUX8") ∧
        ¬(strContains (upperStr name) "ECG" = true ∨ name = "AUX9") ∧
        ¬strContains (upperStr name) "TRIGGER" = true)) := by
  have e1 : (strContains (upperStr name) "EOG" || name == "AUX7" || name == "AUX8") = true ↔
      (strContains (upperStr name) "EOG" = true ∨ name = "AUX7" ∨ name = "AUX8") := by
    simp [Bool.or_eq_true, beq_iff_eq, or_assoc]
  have e2 : (strContains (upperStr name) "ECG" || name == "AUX9") = true ↔
      (strContains (upperStr name) "ECG" = true ∨ name = "AUX9") := by
    simp [Bool.or_eq_true, beq_iff_eq]
  by_cases hA : strContains (upperStr name) "EOG" = true ∨ name = "AUX7" ∨ name = "AUX8" <;>
    by_cases hB : strContains (upperStr name) "ECG" = true ∨ name = "AUX9" <;>
      by_cases hC : strContains (upperStr name) "TRIGGER" = true <;>
        simp [chTypeOf, e1, e2, hA, hB, hC]

/-- `02_Interpolate_Bad_Channels.py` lines 70-75 (and the Artifact-Removal
stage's component toggle): remove the key when present, append it when
absent. -/
def toggle {α : Type} [DecidableEq α] (k : α) (s : List α) : List α :=
  if k ∈ s then s.erase k else s ++ [k]

/-- Claim C6: over a duplicate-free exclusion set, a single toggle adds the
key when absent and removes it when present, and a double toggle restores
the set: exactly when the key was absent, and up to membership when it was
present. -/
theorem toggle_double {α : Type} [DecidableEq α] (S : List α) (k : α)
    (hnd : S.Nodup) :
    (∀ x, x ∈ toggle k (toggle k S) ↔ x ∈ S) ∧
    (k ∉ S → toggle k (toggle k S) = S) ∧
    (k ∉ S → toggle k S = S ++ [k]) ∧
    (k ∈ S → k ∉ toggle k S ∧ ∀ x, x ≠ k → (x ∈ toggle k S ↔ x ∈ S)) := by
  by_cases hk : k ∈ S
  · have h1 : toggle k S = S.erase k := if_pos hk
    have hkm : k ∉ S.erase k := by
      intro hx
      exact ((hnd.mem_erase_iff).1 hx).1 rfl
    have h2 : toggle k (toggle k S) = S.erase k ++ [k] := by
      rw [h1, toggle, if_neg hkm]
    refine ⟨?_, fun hk2 => absurd hk hk2, fun hk2 => absurd hk hk2,
      fun _ => ⟨by rw [h1]; exact hkm, ?_⟩⟩
    · intro x
      rw [h2, List.mem_append, List.mem_singleton, hnd.mem_erase_iff]
      constructor
      · rintro (⟨-, hxS⟩ | rfl)
        · exact hxS
        · exact hk
      · intro hxS
        by_cases hxk : x = k
        · exact Or.inr hxk
        · exact Or.inl ⟨hxk, hxS⟩
    · intro x hxk
      rw [h1, hnd.mem_erase_iff]
      exact ⟨fun h => h.2, fun h => ⟨hxk, h⟩⟩
  · have h1 : toggle k S = S ++ [k] := if_neg hk
    have hk2 : k ∈ S ++ [k] := by simp
    have h2 : toggle k (toggle k S) = S := by
      rw [h1, toggle, if_pos hk2, List.erase_append_right _ hk,
        List.erase_cons_head, List.append_nil]
    exact ⟨fun x => by rw [h2], fun _ => h2, fun _ => h1,
      fun hk3 => absurd hk3 hk⟩

/-- Witness for `toggle_double` on the concrete exclusion set [0, 2] with
key 2. -/
theorem toggle_double_witness :
    (2 ∈ toggle 2 (toggle 2 ([0, 2] : List ℕ)) ↔ 2 ∈ ([0, 2] : List ℕ)) ∧
      2 ∉ toggle 2 ([0, 2] : List ℕ) := by
  have h := toggle_double ([0, 2] : List ℕ) 2 (by decide)
  exact ⟨h.1 2, (h.2.2.2 (by decide)).1⟩

/-- Elements of a toggled list stay inside a roster that holds both the
list and the key. -/
theorem toggle_subset_roster {α : Type} [DecidableEq α] (k : α)
    (s roster : List α) (hk : k ∈ roster) (hs : ∀ x ∈ s, x ∈ roster) :
    ∀ x ∈ toggle k s, x ∈ roster := by
  intro x hx
  by_cases hmem : k ∈ s
  · rw [toggle, if_pos hmem] at hx
    exact hs x (List.erase_subset _ _ hx)
  · rw [toggle, if_neg hmem] at hx
    rcases List.mem_append.1 hx with h | h
    · exact hs x h
    · rw [List.mem_singleton] at h
      subst h
      exact hk

/-- `02_Interpolate_Bad_Channels.py` line 62: console-input normalization
`user_input.strip().upper()`. -/
def normalizeInput (s : String) : String :=
  upperStr s.trim

/-- `02_Interpolate_Bad_Channels.py` line 68: the first roster channel
whose uppercase form equals the normalized input. -/
def canonicalName (chNames : List String) (target : String) : Option String :=
  chNames.find? (fun ch => upperStr ch == target)

/-- `02_Interpolate_Bad_Channels.py` lines 54-77: the bad-channel
confirmation loop over a finite queue of console inputs. An empty input
confirms the current list; an input matching no roster channel
case-insensitively is rejected and re-prompts; a matching input is toggled
under the roster's canonical spelling. An exhausted queue leaves the
current list standing. -/
def confirmLoop (chNames : List String) : List String → List String → List String
  | [], bads => bads
  | inp :: rest, bads =>
    if inp = "" then bads
    else
      match canonicalName chNames (normalizeInput inp) with
      | none => confirmLoop chNames rest bads
      | some actual => confirmLoop chNames rest (toggle actual bads)

/-- Claim C9: when the initial bad list holds only roster names, every name
in the confirmed list is a roster name in the roster's exact spelling;
unknown inputs leave the list untouched (re-prompt), and accepted inputs
are toggled under the roster's canonical spelling, whose uppercase form
equals the normalized input. -/
theorem confirm_loop_roster_invariant (chNames : List String) :
    (∀ inputs bads0, (∀ x ∈ bads0, x ∈ chNames) →
      ∀ x ∈ confirmLoop chNames inputs bads0, x ∈ chNames) ∧
    (∀ inp rest bads, inp ≠ "" →
      canonicalName chNames (normalizeInput inp) = none →
      confirmLoop chNames (inp :: rest) bads = confirmLoop chNames rest bads) ∧
    (∀ inp rest bads actual, inp ≠ "" →
      canonicalName chNames (normalizeInput inp) = some actual →
      confirmLoop chNames (inp :: rest) bads =
          confirmLoop chNames rest (toggle actual bads) ∧
        actual ∈ chNames ∧ upperStr actual = normalizeInput inp) := by
  refine ⟨?_, ?_, ?_⟩
  · intro inputs
    induction inputs with
    | nil =>
      intro bads0 h x hx
      exact h x hx
    | cons inp rest ih =>
      intro bads0 h x hx
      by_cases hemp : inp = ""
      · simp only [confirmLoop, if_pos hemp] at hx
        exact h x hx
      · simp only [confirmLoop, if_neg hemp] at hx
        cases hc : canonicalName chNames (normalizeInput inp) with
        | none =>
          simp only [hc] at hx
          exact ih bads0 h x hx
        | some actual =>
          simp only [hc] at hx
          refine ih _ ?_ x hx
          exact toggle_subset_roster actual bads0 chNames
            (List.mem_of_find?_eq_some hc) h
  · intro inp rest bads hne hcnone
    simp only [confirmLoop, if_neg hne, hcnone]
  · intro inp rest bads actual hne hc
    refine ⟨by simp only [confirmLoop, if_neg hne, hc],
      List.mem_of_find?_eq_some hc, ?_⟩
    have hp := List.find?_some
      (show chNames.find? (fun ch => upperStr ch == normalizeInput inp) =
        some actual from hc)
    simpa [beq_iff_eq] using hp

/-- Witness for `confirm_loop_roster_invariant`: roster [Fp1, Cz], inputs
"fp1" (accepted, canonicalized), "XX" (rejected), "" (confirm). -/
theorem confirm_loop_roster_invariant_witness :
    ∀ x ∈ confirmLoop ["Fp1", "Cz"] ["fp1", "XX", ""] [], x ∈ ["Fp1", "Cz"] := by
  have h := confirm_loop_roster_invariant ["Fp1", "Cz"]
  exact h.1 ["fp1", "XX", ""] [] (by simp)

/-- `04_ICA.py` line 82: `sorted(list(set(eog_indices + ecg_indices)))`,
the automatically assembled component-exclusion set. -/
def assembleExclude (eogIdx ecgIdx : List ℕ) : List ℕ :=
  List.insertionSort (· ≤ ·) (eogIdx ++ ecgIdx).dedup

/-- Claim C10: the automatically assembled exclusion set — the union of the
ocular- and cardiac-flagged component indices — has no duplicate indices,
is sorted in ascending order, and holds exactly the union's members. -/
theorem assemble_exclude_sorted_nodup (eogIdx ecgIdx : List ℕ) :
    (assembleExclude eogIdx ecgIdx).Nodup ∧
    List.Sorted (· ≤ ·) (assembleExclude eogIdx ecgIdx) ∧
    ∀ x, x ∈ assembleExclude eogIdx ecgIdx ↔ (x ∈ eogIdx ∨ x ∈ ecgIdx) := by
  refine ⟨?_, List.sorted_insertionSort _ _, ?_⟩
  · exact ((List.perm_insertionSort _ _).nodup_iff).2 (List.nodup_dedup _)
  · intro x
    unfold assembleExclude
    rw [List.Perm.mem_iff (List.perm_insertionSort _ _), List.mem_dedup,
      List.mem_append]

/-- One annotation: onset relative to the signal clock origin, duration,
and label. -/
structure Annotation where
  onset : ℚ
  duration : ℚ
  description : String
deriving Repr, DecidableEq

/-- `01_Load_and_filter.py` lines 114-123 (and `Load_and_filter.py` lines
56-65): the Annotation Builder. Onsets are the marker timestamps shifted
by the signal stream's first timestamp, durations are all zero,
descriptions are the payload strings; with no marker stream no annotations
are set, so the collection stays empty. -/
def buildAnnotations (markerStream : Option XStream) (eegFirstTs : ℚ) :
    List Annotation :=
  match markerStream with
  | none => []
  | some m =>
    (m.timeStamps.zip m.payloads).map fun tp =>
      ⟨tp.1 - eegFirstTs, 0, tp.2⟩

/-- Claim C8: every event of the event stream yields one annotation whose
onset is the event timestamp minus the signal stream's first timestamp,
whose duration is zero, and whose label is the event payload's string
representation; with no event stream the annotation collection is empty. -/
theorem annotation_builder_correct (m : XStream) (t0 : ℚ)
    (hlen : m.timeStamps.length = m.payloads.length) :
    (buildAnnotations (some m) t0).length = m.timeStamps.length ∧
    (∀ (i : ℕ) (t : ℚ) (p : String),
      m.timeStamps[i]? = some t → m.payloads[i]? = some p →
      (buildAnnotations (some m) t0)[i]? =
        some (⟨t - t0, 0, p⟩ : Annotation)) ∧
    buildAnnotations none t0 = [] := by
  refine ⟨?_, ?_, rfl⟩
  · simp [buildAnnotations, hlen]
  · intro i t p ht hp
    have hz : (m.timeStamps.zip m.payloads)[i]? = some (t, p) :=
      List.getElem?_zip_eq_some.mpr ⟨ht, hp⟩
    simp [buildAnnotations, List.getElem?_map, hz]

/-- Witness for `annotation_builder_correct` at a two-event marker stream
with signal origin 10. -/
theorem annotation_builder_correct_witness :
    (buildAnnotations (some ⟨"mk", "Markers", [12, 15], ["A", "B"]⟩) 10)[0]? =
      some (⟨2, 0, "A"⟩ : Annotation) := by
  have h := annotation_builder_correct ⟨"mk", "Markers", [12, 15], ["A", "B"]⟩ 10 rfl
  have h2 := h.2.1 0 12 "A" rfl rfl
  norm_num at h2 ⊢
  exact h2

/-- A sample value: finite rational or non-finite (NaN or infinity). -/
inductive Sample
  | fin (q : ℚ)
  | nonfinite
deriving DecidableEq, Repr

/-- Whether a sample is finite. -/
def Sample.isFinite : Sample → Bool
  | .fin _ => true
  | .nonfinite => false

/-- Finite value of a sample (0 for non-finite; used only under an
all-finite guard). -/
def Sample.val : Sample → ℚ
  | .fin q => q
  | .nonfinite => 0

/-- One channel of a Raw object: label, MNE kind, sample vector. -/
structure Channel where
  name : String
  ctype : ChType
  data : List Sample
deriving DecidableEq, Repr

/-- Provenance of a Raw object: which transforms produced its data.
`filtered l h` records a filter call with the given cutoffs, `icaCleaned
excl` an ICA reconstruction with the excluded components subtracted. -/
inductive DataTag
  | loaded
  | filtered (lfreq hfreq : Option ℚ) (parent : DataTag)
  | icaCleaned (exclude : List ℕ) (parent : DataTag)
deriving DecidableEq, Repr

/-- An MNE Raw object as the pipeline threads it: channels, bad-channel
list, and the provenance of its data. -/
structure Raw where
  channels : List Channel
  bads : List String
  tag : DataTag
deriving DecidableEq, Repr

/-- Channels not currently marked bad. -/
def goodChannels (raw : Raw) : List Channel :=
  raw.channels.filter (fun c => !(raw.bads.contains c.name))

/-- Arithmetic mean of a list of samples: non-finite when the list is
empty or any entry is non-finite (as numpy propagates). -/
def meanSample (xs : List Sample) : Sample :=
  if xs.isEmpty || xs.any (fun x => !x.isFinite) then .nonfinite
  else .fin ((xs.map Sample.val).sum / xs.length)

/-- Modelled from the spec: the spherical-spline kernel behind
`interpolate_bads` is the external library, missing from this repository;
per the spec it reconstructs every bad channel from the neighboring good
channels, modelled here as their per-sample arithmetic mean. The
bad-channel set is cleared afterwards (`reset_bads=True`). -/
def interpolateBads (raw : Raw) : Raw :=
  { channels := raw.channels.map fun c =>
      if raw.bads.contains c.name then
        { c with data := (List.range c.data.length).map fun j =>
            meanSample ((goodChannels raw).map fun g =>
              g.data.getD j .nonfinite) }
      else c,
    bads := [],
    tag := raw.tag }

/-- `02_Interpolate_Bad_Channels.py` lines 81-88: skip interpolation when
no bad channels were selected, otherwise interpolate and clear the set. -/
def interpolationStep (raw : Raw) : Raw :=
  if raw.bads.isEmpty then raw else interpolateBads raw

/-- Claim C5: after interpolating a non-empty bad-channel set over a
roster whose good channels are finite everywhere, share one data length,
and include at least one good channel, the bad-channel set is empty and
every channel that was bad is finite at every sample; with an empty
bad-channel set the step returns its input unchanged and never errs. -/
theorem interpolation_invariant (raw : Raw)
    (hne : raw.bads ≠ [])
    (hlen : ∀ c1 ∈ raw.channels, ∀ c2 ∈ raw.channels,
      c1.data.length = c2.data.length)
    (hgood : ∃ c ∈ raw.channels, raw.bads.contains c.name = false)
    (hfin : ∀ c ∈ raw.channels, raw.bads.contains c.name = false →
      ∀ s ∈ c.data, s.isFinite = true) :
    (interpolationStep raw).bads = [] ∧
    (∀ c ∈ (interpolationStep raw).channels,
      raw.bads.contains c.name = true → ∀ s ∈ c.data, s.isFinite = true) ∧
    (∀ r : Raw, r.bads = [] → interpolationStep r = r) := by
  have hie : raw.bads.isEmpty = false := by
    cases hb : raw.bads with
    | nil => exact absurd hb hne
    | cons a l => rfl
  have hstep : interpolationStep raw = interpolateBads raw := by
    rw [interpolationStep, hie]
    rfl
  refine ⟨by rw [hstep]; rfl, ?_, ?_⟩
  · intro c hc hbad s hs
    rw [hstep] at hc
    obtain ⟨c0, hc0, hmap⟩ := List.mem_map.1 hc
    by_cases hb0 : raw.bads.contains c0.name = true
    · rw [if_pos hb0] at hmap
      subst hmap
      simp only [List.mem_map] at hs
      obtain ⟨j, hj, hsj⟩ := hs
      subst hsj
      have hgne : (goodChannels raw).map (fun g => g.data.getD j .nonfinite) ≠ [] := by
        obtain ⟨g, hg, hgb⟩ := hgood
        have : g ∈ goodChannels raw := by
          rw [goodChannels, List.mem_filter]
          exact ⟨hg, by simpa using hgb⟩
        intro hmt
        rw [List.map_eq_nil_iff] at hmt
        rw [hmt] at this
        exact absurd this (List.not_mem_nil g)
      have hallfin : ∀ x ∈ (goodChannels raw).map
          (fun g => g.data.getD j .nonfinite), x.isFinite = true := by
        intro x hx
        obtain ⟨g, hg, hgx⟩ := List.mem_map.1 hx
        have hgmem : g ∈ raw.channels := List.mem_of_mem_filter hg
        have hgb : raw.bads.contains g.name = false := by
          have := (List.mem_filter.1 hg).2
          simpa using this
        have hjlt : j < g.data.length := by
          rw [List.mem_range] at hj
          have := hlen c0 hc0 g hgmem
          omega
        rw [← hgx, List.getD_eq_getElem _ _ hjlt]
        exact hfin g hgmem hgb _ (List.getElem_mem hjlt)
      rw [meanSample, if_neg]
      · rfl
      · intro hcond
        rcases Bool.or_eq_true_iff.1 hcond with h | h
        · rw [List.isEmpty_eq_true] at h
          exact hgne h
        · obtain ⟨x, hx, hxf⟩ := List.any_eq_true.1 h
          rw [hallfin x hx] at hxf
          simp at hxf
    · rw [if_neg hb0] at hmap
      subst hmap
      exact absurd hbad hb0
  · intro r hr
    rw [interpolationStep, hr]
    rfl

/-- Witness for `interpolation_invariant`: bad channel Fp1 with a
non-finite sample, good channel Cz. -/
theorem interpolation_invariant_witness :
    (interpolationStep ⟨[⟨"Fp1", .eeg, [.nonfinite, .fin 1]⟩,
      ⟨"Cz", .eeg, [.fin 1, .fin 3]⟩], ["Fp1"], .loaded⟩).bads = [] ∧
    (∀ c ∈ (interpolationStep ⟨[⟨"Fp1", .eeg, [.nonfinite, .fin 1]⟩,
        ⟨"Cz", .eeg, [.fin 1, .fin 3]⟩], ["Fp1"], .loaded⟩).channels,
      (["Fp1"] : List String).contains c.name = true →
        ∀ s ∈ c.data, s.isFinite = true) := by
  have h := interpolation_invariant
    ⟨[⟨"Fp1", .eeg, [.nonfinite, .fin 1]⟩,
      ⟨"Cz", .eeg, [.fin 1, .fin 3]⟩], ["Fp1"], .loaded⟩
    (by simp) (by decide) (by decide) (by decide)
  exact ⟨h.1, h.2.1⟩

/-- `04_ICA.py` line 40: `filt_raw.pick_types(eeg=True)`. -/
def pickTypesEEG (raw : Raw) : Raw :=
  { raw with channels := raw.channels.filter (fun c => c.ctype == ChType.eeg) }

/-- `04_ICA.py` line 41: `filt_raw.filter(l_freq=1.0, h_freq=None)`. The
FIR kernel is external; the embedding records the cutoffs in the data
provenance. -/
def hpFilter (l : ℚ) (raw : Raw) : Raw :=
  { raw with tag := .filtered (some l) none raw.tag }

/-- `04_ICA.py` lines 38-41: the copy handed to `ica.fit` — EEG-role
channels only, high-pass filtered at 1 Hz. -/
def icaFitInput (raw : Raw) : Raw :=
  hpFilter 1 (pickTypesEEG raw)

/-- `04_ICA.py` lines 108-109: `ica.apply(raw_cleaned)` on `raw.copy()` —
reconstruct with the excluded components subtracted; the provenance
records which object the subtraction ran on. -/
def icaApply (exclude : List ℕ) (raw : Raw) : Raw :=
  { raw with tag := .icaCleaned exclude raw.tag }

/-- `04_ICA.py` lines 31-109, data path only: fit on `icaFitInput raw`,
assemble the exclusion set from the flagged indices, apply to a copy of
the original `raw`. Returns the cleaned Raw. -/
def icaStage (raw : Raw) (eogIdx ecgIdx : List ℕ) : Raw :=
  icaApply (assembleExclude eogIdx ecgIdx) raw

/-- A provenance tag never equals a strictly larger tag built on it. -/
theorem tag_ne_filtered_self (t : DataTag) (l h : Option ℚ) :
    t ≠ DataTag.filtered l h t := by
  intro he
  have hs : sizeOf t = sizeOf (DataTag.filtered l h t) := by rw [← he]
  simp only [DataTag.filtered.sizeOf_spec] at hs
  omega

/-- Claim C4: the decomposition is fitted on a separate copy restricted to
signal-role channels and high-pass filtered at 1 Hz (≥ 1 Hz); the
excluded components are subtracted from the original, pre-high-pass
data — the cleaned output carries the full roster and the original
provenance, never the fitting copy's, whatever exclusion set is used. -/
theorem ica_fit_apply_separation (raw : Raw) (eogIdx ecgIdx : List ℕ) :
    (∀ c ∈ (icaFitInput raw).channels, c.ctype = ChType.eeg) ∧
    (icaFitInput raw).tag = .filtered (some 1) none raw.tag ∧ (1 : ℚ) ≥ 1 ∧
    icaStage raw eogIdx ecgIdx = icaApply (assembleExclude eogIdx ecgIdx) raw ∧
    (icaStage raw eogIdx ecgIdx).channels = raw.channels ∧
    (icaStage raw eogIdx ecgIdx).tag =
      .icaCleaned (assembleExclude eogIdx ecgIdx) raw.tag ∧
    ∀ e : List ℕ,
      (icaStage raw eogIdx ecgIdx).tag ≠ (icaApply e (icaFitInput raw)).tag := by
  refine ⟨?_, rfl, le_refl 1, rfl, rfl, rfl, ?_⟩
  · intro c hc
    have hmem := (List.mem_filter.1 hc).2
    simpa using hmem
  · intro e he
    simp only [icaStage, icaApply, icaFitInput, hpFilter, pickTypesEEG,
      DataTag.icaCleaned.injEq] at he
    exact tag_ne_filtered_self raw.tag (some 1) none he.2

/-- Witness for `ica_fit_apply_separation` at an empty Raw. -/
theorem ica_fit_apply_separation_witness :
    (icaFitInput (⟨[], [], .loaded⟩ : Raw)).tag =
      .filtered (some 1) none .loaded :=
  (ica_fit_apply_separation ⟨[], [], .loaded⟩ [0] [1]).2.1

/-- Whether a channel holds at least one non-finite sample. -/
def Channel.hasNonfinite (c : Channel) : Bool :=
  c.data.any (fun s => !s.isFinite)

/-- Claim C2 counterexample: a Raw whose EEG channel "Fp1" holds a
non-finite sample enters the decomposition fit unsanitized — "Fp1" is not
added to the bad-channel set, and the fitting copy still carries the
channel with its non-finite sample. -/
theorem ica_nan_sanitation_counterexample :
    Channel.hasNonfinite ⟨"Fp1", .eeg, [.nonfinite, .fin 1]⟩ = true ∧
    (icaFitInput ⟨[⟨"Fp1", .eeg, [.nonfinite, .fin 1]⟩], [], .loaded⟩).bads = [] ∧
    (⟨"Fp1", .eeg, [.nonfinite, .fin 1]⟩ : Channel) ∈
      (icaFitInput ⟨[⟨"Fp1", .eeg, [.nonfinite, .fin 1]⟩], [], .loaded⟩).channels := by
  decide

/-- Claim C2 (amended): no non-finite scan or sanitation runs before the
fit: the fitting copy's bad-channel set equals the input's, every fitting
channel is taken verbatim from the input (non-finite samples included),
and every EEG-role input channel reaches the fit unmodified. -/
theorem ica_no_nan_sanitation (raw : Raw) :
    (icaFitInput raw).bads = raw.bads ∧
    (∀ c ∈ (icaFitInput raw).channels, c ∈ raw.channels) ∧
    (∀ c ∈ raw.channels, c.ctype = ChType.eeg →
      c ∈ (icaFitInput raw).channels) := by
  refine ⟨rfl, ?_, ?_⟩
  · intro c hc
    exact List.mem_of_mem_filter hc
  · intro c hc he
    exact List.mem_filter.2 ⟨hc, by simp [he]⟩

/-- Witness for `ica_no_nan_sanitation` at a one-channel Raw with a bad
list carried over. -/
theorem ica_no_nan_sanitation_witness :
    (icaFitInput (⟨[⟨"Cz", .eeg, [.fin 2]⟩], ["Pz"], .loaded⟩ : Raw)).bads =
        ["Pz"] ∧
      (⟨"Cz", .eeg, [.fin 2]⟩ : Channel) ∈
        (icaFitInput (⟨[⟨"Cz", .eeg, [.fin 2]⟩], ["Pz"], .loaded⟩ : Raw)).channels := by
  have h := ica_no_nan_sanitation ⟨[⟨"Cz", .eeg, [.fin 2]⟩], ["Pz"], .loaded⟩
  exact ⟨h.1, h.2.2 ⟨"Cz", .eeg, [.fin 2]⟩ (by simp) rfl⟩

/-- Outcome of one script invocation: process completion state, output
files written, console messages printed. -/
structure RunResult where
  exitCode : ℕ
  outputs : List String
  messages : List String
deriving Repr, DecidableEq

/-- Environment of `01_Load_and_filter.py`: whether the hard-coded input
file exists, and the streams the file holds. -/
structure Env01 where
  inputExists : Bool
  streams : List XStream
deriving Repr, DecidableEq

/-- `01_Load_and_filter.py` `main` (lines 131-200), control flow only.
A missing input file, or a zero-stream recording (RuntimeError raised in
`load_xdf_to_mne`, caught by its generic handler, None returned), prints
an error and returns from `main` — the interpreter then finishes with
completion state 0 — and no output is written. Otherwise the script
filters and saves the output. Interactive stream selection, plotting and
the numeric filters are abstracted away. -/
def run01 (env : Env01) : RunResult :=
  if !env.inputExists then
    ⟨0, [],
      ["Error: Input file not found: sub-P003_ses-S001_task-Default_run-001_eeg.xdf"]⟩
  else if env.streams.isEmpty then
    ⟨0, [],
      ["An error occurred during file loading: No streams found in the XDF file.",
        "Failed to load data. Exiting."]⟩
  else
    ⟨0, ["sub-P003_ses-S001_task-Default_run-001_filtered_raw.fif"],
      ["Done. You can now use this .fif file for the next preprocessing steps."]⟩

/-- Environment of `04_ICA.py`: whether the input file exists and whether
the picard package is importable. -/
structure Env04 where
  inputExists : Bool
  picardAvailable : Bool
deriving Repr, DecidableEq

/-- `04_ICA.py` `main` (lines 10-128), control flow only: a missing input
file, or an ImportError from the picard decomposition method, prints an
error with remediation and returns from `main` (completion state 0)
without writing output; otherwise the stage saves the cleaned data and
the ICA solution. -/
def run04 (env : Env04) : RunResult :=
  if !env.inputExists then
    ⟨0, [],
      ["Error: Input file not found: ./sub-P003_ses-S001_task-Default_run-001_rereferenced_raw.fif",
        "Please make sure you have run the 03_Re-reference.py script first."]⟩
  else if !env.picardAvailable then
    ⟨0, [],
      ["--- ERROR: picard package not found! ---",
        "pip install python-picard"]⟩
  else
    ⟨0, ["./sub-P003_ses-S001_task-Default_run-001_ica_cleaned_raw.fif",
        "./sub-P003_ses-S001_task-Default_run-001-ica.fif"],
      ["Done. The pipeline is complete."]⟩

/-- Environment of `Load_and_filter.py`: whether the input file exists and
the streams it holds. -/
structure EnvLoad where
  inputExists : Bool
  streams : List XStream
deriving Repr, DecidableEq

/-- `Load_and_filter.py` `main` (lines 69-120), control flow only: a
missing input file prints an error and returns (completion state 0); a
recording without an EEG-type stream raises RuntimeError, which no handler
catches, so the interpreter aborts with a non-zero completion state;
otherwise the script saves the filtered output. -/
def runLoadAuto (env : EnvLoad) : RunResult :=
  if !env.inputExists then
    ⟨0, [],
      ["Error: Input file not found: sub-P002_ses-S001_task-Default_run-001_eeg.xdf"]⟩
  else
    match loadSignalStream env.streams with
    | .error e => ⟨1, [], [e]⟩
    | .ok _ =>
      ⟨0, ["sub-P002_ses-S001_task-Default_run-001_filtered_raw.fif"],
        ["Done. You can now use this .fif file for the next preprocessing steps."]⟩

/-- Claim C1 counterexample: with the input file missing — a fatal
condition — `01_Load_and_filter.py` prints the error and returns from
`main`, so the process completes with state 0, not a non-zero state. -/
theorem fatal_exit_code_counterexample :
    (run01 ⟨false, []⟩).messages ≠ [] ∧ (run01 ⟨false, []⟩).outputs = [] ∧
      (run01 ⟨false, []⟩).exitCode = 0 := by
  refine ⟨by simp [run01], rfl, rfl⟩

/-- Claim C1 (amended): on every fatal path a message identifying the
failure is printed and no output file is written, but the handled fatal
paths (missing input, zero streams, unavailable decomposition method)
return normally from `main` with completion state 0; only the uncaught
automatic-selection failure (no matching stream type in
`Load_and_filter.py`) ends with a non-zero state. -/
theorem fatal_paths_no_output (e1 : Env01) (e4 : Env04) (el : EnvLoad) :
    (e1.inputExists = false ∨ e1.streams = [] →
      (run01 e1).outputs = [] ∧ (run01 e1).messages ≠ [] ∧
        (run01 e1).exitCode = 0) ∧
    (e4.inputExists = false ∨ e4.picardAvailable = false →
      (run04 e4).outputs = [] ∧ (run04 e4).messages ≠ [] ∧
        (run04 e4).exitCode = 0) ∧
    (el.inputExists = true → (∀ s ∈ el.streams, s.typeTag ≠ "EEG") →
      (runLoadAuto el).outputs = [] ∧ (runLoadAuto el).messages ≠ [] ∧
        (runLoadAuto el).exitCode ≠ 0) := by
  refine ⟨?_, ?_, ?_⟩
  · intro h
    rcases h with h | h
    · simp [run01, h]
    · by_cases hin : e1.inputExists
      · simp [run01, hin, h]
      · simp [run01, hin]
  · intro h
    rcases h with h | h
    · simp [run04, h]
    · by_cases hin : e4.inputExists
      · simp [run04, hin, h]
      · simp [run04, hin]
  · intro hin hno
    have hfind : findEEGStream el.streams = none := by
      rw [findEEGStream, List.find?_eq_none]
      intro s hs
      simp [hno s hs]
    simp [runLoadAuto, hin, loadSignalStream, hfind]

/-- Witness for `fatal_paths_no_output`: picard missing for the ICA stage,
a marker-only recording for the automatic loader. -/
theorem fatal_paths_no_output_witness :
    (run04 ⟨true, false⟩).outputs = [] ∧ (run04 ⟨true, false⟩).exitCode = 0 ∧
      (runLoadAuto ⟨true, [⟨"m", "Markers", [], []⟩]⟩).exitCode ≠ 0 := by
  have h := fatal_paths_no_output ⟨false, []⟩ ⟨true, false⟩
    ⟨true, [⟨"m", "Markers", [], []⟩]⟩
  have h4 := h.2.1 (Or.inr rfl)
  have hl := h.2.2 rfl (by decide)
  exact ⟨h4.1, h4.2.2, hl.2.2⟩

/-- Witness for `role_assignment_priority`: the label "vEOG" gets the
ocular role by the first rule. -/
theorem role_assignment_priority_witness :
    chTypeOf "vEOG" = ChType.eog :=
  (role_assignment_priority "vEOG").1.2 (Or.inl (by decide))

/-- Witness for `assemble_exclude_sorted_nodup` at overlapping flagged
index lists. -/
theorem assemble_exclude_sorted_nodup_witness :
    (assembleExclude [2, 0] [2, 1]).Nodup ∧
      List.Sorted (· ≤ ·) (assembleExclude [2, 0] [2, 1]) :=
  ⟨(assemble_exclude_sorted_nodup [2, 0] [2, 1]).1,
    (assemble_exclude_sorted_nodup [2, 0] [2, 1]).2.1⟩

end Vestibular
